import Mathlib

/-!
Shallow embedding of `khinsider_downloader.py` (KhinsiderDownloader).

The Python program scrapes an album page of downloads.khinsider.com,
extracts the album title, duration, available audio formats with
human-readable sizes, and per-track detail-page URLs, then resolves and
downloads each track.  The definitions below translate the non-I/O logic
of the source file: pure string manipulation is modelled on `List Char` /
`String`, the HTML documents are modelled by records carrying exactly the
pieces of the page the source code reads (texts of `th` cells, hrefs of
`td.next_element`, hrefs of download-link parents), and Python exceptions
become an explicit error type threaded through `Except` / `Option`.
-/

/-- The site origin, `BASE_URL` in the source. -/
def BASE_URL : String := "https://downloads.khinsider.com"

/-- Python exceptions that the modelled code can raise.
`connectionRefused` is the `ConnectionRefusedError` raised for a
non-existent album id (the spec's `NotFound`); `indexError` covers both
`list[...]` out-of-range accesses and `rsplit`-result indexing;
`stopIteration` is `next()` on an exhausted generator (no `MP3` header);
`valueError` covers failed `int()` parses, unpacking an empty tuple and
`max([])`; `typeError` is subscripting an element with no `href`. -/
inductive PyError where
  | attributeError
  | indexError
  | stopIteration
  | valueError
  | typeError
  | connectionRefused
deriving DecidableEq, Repr

/-! ### Generic Python-style helpers -/

/-- Python list indexing `l[i]` for possibly negative `i`:
negative indices count from the end; out-of-range gives `none`
(an `IndexError` at the call site). -/
def pyIndex (l : List α) (i : Int) : Option α :=
  if 0 ≤ i then l.get? i.toNat
  else if (l.length : Int) + i < 0 then none
  else l.get? ((l.length : Int) + i).toNat

/-- Normalisation of one slice bound, as in CPython: a negative bound is
offset by the length and clamped below at 0, a non-negative bound is
clamped above at the length. -/
def pyNorm (len : Nat) (i : Int) : Nat :=
  if i < 0 then ((len : Int) + i).toNat else min i.toNat len

/-- Python slice `l[a:b]` (step 1) with negative-index handling. -/
def pySlice (l : List α) (a b : Int) : List α :=
  (l.drop (pyNorm l.length a)).take (pyNorm l.length b - pyNorm l.length a)

/-- Python `str.strip()`: drop leading and trailing whitespace. -/
def pyStrip (s : String) : String :=
  ⟨((s.data.dropWhile Char.isWhitespace).reverse.dropWhile Char.isWhitespace).reverse⟩

/-- List-comprehension `[x for i, x in enumerate(l) if i % 4 == 0]` from
the track-URL extraction: keep elements at indices 0, 4, 8, ... -/
def everyFourth : List α → List α
  | [] => []
  | a :: [] => [a]
  | a :: _ :: [] => [a]
  | a :: _ :: _ :: [] => [a]
  | a :: _ :: _ :: _ :: rest => a :: everyFourth rest

/-- Effectful `map` over a list where each element may fail, returning
`none` at the first failure — models a Python `map`/comprehension whose
body can raise. -/
def mapOption (f : α → Option β) : List α → Option (List β)
  | [] => some []
  | a :: l =>
    match f a, mapOption f l with
    | some b, some bs => some (b :: bs)
    | _, _ => none

/-! ### SizeFormatter (`format_bytes`) -/

/-- One pass of the source's unit-selection loop, fuelled so that the
recursion is structural (the fuel only bounds the number of iterations;
`unitIndex` below supplies fuel `m`, which always suffices since each
iteration divides `m` by 1000):

    index = 0
    while max_bytes >= 1000:
        index += 1
        max_bytes /= 1000

For natural-number input the floor division used here selects the same
index as Python's float division, because `⌊x / 1000⌋ ≥ 1000 ↔ x ≥ 10^6`. -/
def unitIndexAux : Nat → Nat → Nat
  | 0, _ => 0
  | fuel + 1, m => if m < 1000 then 0 else unitIndexAux fuel (m / 1000) + 1

/-- Number of 1000-divisions the source's while-loop performs on `m`. -/
def unitIndex (m : Nat) : Nat := unitIndexAux m m

/-- Model of `unit_dict.get(index)`: the dictionary lookup of the source, `none`
(Python `None`) beyond `GB`. -/
def unitName : Nat → Option String
  | 0 => some "B"
  | 1 => some "KB"
  | 2 => some "MB"
  | 3 => some "GB"
  | _ => none

/-- How an f-string renders the unit: `None` prints as `"None"`. -/
def optStr : Option String → String
  | some u => u
  | none => "None"

/-- Round `num / den` to the nearest integer, ties to even — the rounding
CPython's `:.1f` format applies (to the exact value of the double; the
inputs arising here are far from representation-error boundaries). -/
def roundHalfEven (num den : Nat) : Nat :=
  let q := num / den
  let r := num % den
  if 2 * r < den then q
  else if den < 2 * r then q + 1
  else if q % 2 = 0 then q else q + 1

/-- Rendering of one element, `f'{b / (1024 ** index):.1f} {unit}'`: the byte count scaled by
`1024^index`, printed with one decimal place, then the unit label. -/
def renderSize (index : Nat) (b : Nat) : String :=
  let tenths := roundHalfEven (10 * b) (1024 ^ index)
  toString (tenths / 10) ++ "." ++ toString (tenths % 10) ++ " " ++ optStr (unitName index)

/-- Model of `max(bytes_list)` for a list of naturals (0 on `[]`; `format_bytes`
fails on the empty list before this value is ever used). -/
def listMax (l : List Nat) : Nat := l.foldl Nat.max 0

/-- Translation of `format_bytes(bytes_list)` from the source: pick one unit index from
the maximum of the batch, then render every element with that index.
`max([])` raises `ValueError`, modelled as `none`. -/
def format_bytes (l : List Nat) : Option (List String) :=
  if l = [] then none
  else
    let index := unitIndex (listMax l)
    some (l.map (renderSize index))

example : format_bytes [500, 1500000] = some ["0.0 MB", "1.4 MB"] := by decide
example : format_bytes [1000000000000] = some ["0.9 None"] := by decide

/-! ### URL / filename string helpers -/

/-- Is `c` one of the hexadecimal digit characters `urllib` accepts? -/
def isHexDigit (c : Char) : Bool :=
  ('0' ≤ c && c ≤ '9') || ('a' ≤ c && c ≤ 'f') || ('A' ≤ c && c ≤ 'F')

/-- Numeric value of a hexadecimal digit character. -/
def hexVal (c : Char) : Nat :=
  if '0' ≤ c && c ≤ '9' then c.toNat - '0'.toNat
  else if 'a' ≤ c && c ≤ 'f' then c.toNat - 'a'.toNat + 10
  else c.toNat - 'A'.toNat + 10

/-- Model of `urllib.parse.unquote`: decode every `%XX` escape (hex, either case)
to the character with that code, leaving an invalid `%` untouched.
Modelled byte-per-escape, which coincides with CPython for the
ASCII-range escapes this program manipulates. -/
def unquote : List Char → List Char
  | '%' :: a :: b :: rest =>
    if isHexDigit a && isHexDigit b then
      Char.ofNat (16 * hexVal a + hexVal b) :: unquote rest
    else '%' :: unquote (a :: b :: rest)
  | c :: rest => c :: unquote rest
  | [] => []

/-- Model of `str.replace('#', '%23')`: every `#` becomes the three characters
`%23` (single-character pattern, so a plain character-wise scan). -/
def replaceHash : List Char → List Char
  | [] => []
  | c :: rest =>
    if c = '#' then '%' :: '2' :: '3' :: replaceHash rest
    else c :: replaceHash rest

/-- Model of `str.replace('%23', '#')`: left-to-right, non-overlapping, replace
every occurrence of `%23` by `#` (Python `str.replace` semantics). -/
def replace23 : List Char → List Char
  | '%' :: '2' :: '3' :: rest => '#' :: replace23 rest
  | c :: rest => c :: replace23 rest
  | [] => []

/-- The part of `cs` strictly after its last `/`, or `none` when there is
no `/` — i.e. `cs.rsplit('/', 1)[1]`, whose subscript raises `IndexError`
exactly in the `none` case. -/
def afterLastSlash : List Char → Option (List Char)
  | [] => none
  | c :: rest =>
    match afterLastSlash rest with
    | some t => some t
    | none => if c = '/' then some rest else none

/-- Model of `int(s)` restricted to plain decimal digits (the only shape the size
cells of the scraped table carry once commas are removed): `none` when
empty or containing a non-digit, mirroring `ValueError`. -/
def digitsToNat : List Char → Option Nat
  | [] => none
  | cs =>
    if cs.all Char.isDigit then
      some (cs.foldl (fun a c => 10 * a + (c.toNat - '0'.toNat)) 0)
    else none

/-- Model of `int(s.split(' ')[0].replace(',', '')) * 1_000_000`: the megabyte
count before the first space, commas (thousands separators) removed,
scaled to bytes. -/
def parseSizeMB (s : String) : Option Nat :=
  (digitsToNat ((s.data.takeWhile (· ≠ ' ')).filter (· ≠ ','))).map (· * 1000000)

example : parseSizeMB "1,234 MB" = some 1234000000 := by decide
example : parseSizeMB "MP3" = none := by decide

/-! ### AlbumParser (`KhinsiderAlbum.__init__`) -/

/-- The pieces of an album page that `KhinsiderAlbum.__init__` reads:
the text of the first `h2` (`none` when the page has no `h2`, in which
case `.text` on `None` raises `AttributeError`); the texts of the `th`
cells of the second `table` (`none` when the page has fewer than two
tables, an `IndexError`); and, for each `td` with class `clickable-row`
found after that table in document order, the `href` attribute of the
cell's first nested node (`td.next_element['href']`; `none` when that
node carries no `href`, a `TypeError`). -/
structure AlbumPage where
  h2Text : Option String
  secondTable : Option (List String)
  clickableHrefs : List (Option String)

/-- The `Album` record the constructor produces (spec §3: `title`,
`duration`, `formats` as (name, sizeLabel) pairs, `trackUrls`). -/
structure Album where
  title : String
  duration : String
  formats_and_sizes : List (String × String)
  soundtrack_urls : List String
deriving DecidableEq, Repr

/-- The format-collection loop: starting at the `MP3` header, keep the
stripped text of each `th` while it is non-empty, stop at the first
blank one.

    for i in range(mp3_index, len(th_list)):
        if f := th_list[i].text.strip():
            album_formats.append(f)
        else:
            break
-/
def collectFormats : List String → List String
  | [] => []
  | t :: rest =>
    if pyStrip t ≠ "" then pyStrip t :: collectFormats rest else []

/-- Translation of `next(i for i, th in enumerate(th_list) if th.text == 'MP3')`:
index of the first header cell whose (unstripped) text is exactly
`MP3`; `none` models the `StopIteration` of an exhausted generator. -/
def firstMP3Index : List String → Option Nat
  | [] => none
  | t :: rest =>
    if t = "MP3" then some 0 else (firstMP3Index rest).map (· + 1)

/-- Value of `album_formats` as a function of the header texts and the found
`MP3` index. -/
def formatsFrom (ths : List String) (mp3Idx : Nat) : List String :=
  collectFormats (ths.drop mp3Idx)

/-- Slice `th_list[-(n + 2):-1]` — the slice holding the album duration
followed by the per-format size strings, `n` being `len(album_formats)`. -/
def durationSizesSlice (ths : List String) (n : Nat) : List String :=
  pySlice ths (-((n : Int) + 2)) (-1)

/-- Translation of `KhinsiderAlbum.__init__`, as a function from the modelled page to
either a raised exception or the constructed album.  Every step appears
in the source's order: sentinel-title check, second table, `MP3` header
search (`next(...)`), format collection, duration/sizes slice unpacking
(`a, *rest` raises `ValueError` on an empty tuple), size parsing,
`format_bytes`, zip, and the every-4th clickable-row URL extraction. -/
def mkAlbum (p : AlbumPage) : Except PyError Album :=
  match p.h2Text with
  | none => .error .attributeError
  | some title =>
    if title = "Ooops!" then .error .connectionRefused
    else
      match p.secondTable with
      | none => .error .indexError
      | some ths =>
        match firstMP3Index ths with
        | none => .error .stopIteration
        | some mp3Idx =>
          let fmts := formatsFrom ths mp3Idx
          match durationSizesSlice ths fmts.length with
          | [] => .error .valueError
          | dur :: sizeTexts =>
            match mapOption parseSizeMB sizeTexts with
            | none => .error .valueError
            | some bytesL =>
              match format_bytes bytesL with
              | none => .error .valueError
              | some labels =>
                match mapOption id (everyFourth p.clickableHrefs) with
                | none => .error .typeError
                | some hrefs =>
                  .ok { title := title
                        duration := dur
                        formats_and_sizes := fmts.zip labels
                        soundtrack_urls := hrefs.map (fun h => BASE_URL ++ h) }

/-- Header-cell texts of a well-formed album page (anchor column `MP3`,
a second format `FLAC`, a blank separator, then duration and two size
cells and a trailing blank cell). -/
def thsGood : List String :=
  ["Track", "MP3", "FLAC", "", "3:00", "10 MB", "20 MB", ""]

/-- A well-formed album page used to instantiate the theorems below. -/
def pgGood : AlbumPage :=
  { h2Text := some "Zelda"
    secondTable := some thsGood
    clickableHrefs :=
      [some "/t1", some "/t1", some "/t1", some "/t1",
       some "/t2", some "/t2", some "/t2", some "/t2"] }

/-- The album `mkAlbum` builds from `pgGood`. -/
def albumGood : Album :=
  { title := "Zelda"
    duration := "3:00"
    formats_and_sizes := [("MP3", "9.5 MB"), ("FLAC", "19.1 MB")]
    soundtrack_urls :=
      ["https://downloads.khinsider.com/t1", "https://downloads.khinsider.com/t2"] }

example : mkAlbum pgGood = .ok albumGood := by rfl

/-! ### TrackResolver (`_scrape_download_url`, `_parse_filename`) -/

/-- Adjustment `unquote(download_url).replace('#', '%23')` — the adjustment the
source applies to the raw scraped href before using it as the download
URL. -/
def adjustUrl (href : String) : String :=
  ⟨replaceHash (unquote href.data)⟩

/-- The piece of a track detail page `_scrape_download_url` reads: for
each element with class `songDownloadLink`, in document order, the
`href` of its enclosing link element (`element.parent['href']`). -/
structure TrackPage where
  links : List String

/-- Translation of `_scrape_download_url`: select the `songDownloadLink` element at
(Python, possibly negative) index `audio_select`, read its parent's
`href`, percent-decode it and re-encode `#` as `%23`. -/
def scrape_download_url (pg : TrackPage) (audio_select : Int) : Except PyError String :=
  match pyIndex pg.links audio_select with
  | none => .error .indexError
  | some href => .ok (adjustUrl href)

/-- Translation of `_parse_filename`: `download_url.rsplit('/', 1)[1].replace('%23', '#')`.
The subscript `[1]` raises `IndexError` when the URL contains no `/`. -/
def parse_filename (downloadUrl : String) : Except PyError String :=
  match afterLastSlash downloadUrl.data with
  | none => .error .indexError
  | some seg => .ok ⟨replace23 seg⟩

example : parse_filename "https://x.com/soundtrack/%231 Track 1.mp3"
    = .ok "#1 Track 1.mp3" := by rfl
example : scrape_download_url ⟨["/a/%2319.mp3"]⟩ 0 = .ok "/a/%2319.mp3" := by rfl

/-! ### Downloader (`KhinsiderAlbum.download`) -/

/-- State of one `download` run: the set of files present directly under
the output directory (as a list of filenames), plus the two counters. -/
structure DlState where
  files : List String
  downloaded : Nat
  skipped : Nat
deriving DecidableEq, Repr

/-- One iteration of the download loop: resolve the track URL to a
filename (`resolve` abstracts `_parse_filename(_scrape_download_url url)`
for the session's fixed format index); skip when the file already
exists, otherwise stream it to disk (modelled as appending the filename
to the directory contents) and count the download. -/
def downloadStep (resolve : String → String) (st : DlState) (url : String) : DlState :=
  if resolve url ∈ st.files then
    { st with skipped := st.skipped + 1 }
  else
    { st with files := st.files ++ [resolve url], downloaded := st.downloaded + 1 }

/-- Translation of `KhinsiderAlbum.download`: iterate the album's track URLs in order
over an initial directory state, counters starting at zero. -/
def download (resolve : String → String) (urls : List String) (files₀ : List String) : DlState :=
  urls.foldl (downloadStep resolve) ⟨files₀, 0, 0⟩

example :
    download (fun u => u ++ ".mp3") ["a", "b", "a"] [] =
      { files := ["a.mp3", "b.mp3"], downloaded := 2, skipped := 1 } := by rfl

/-! ### Supporting lemmas -/

theorem mapOption_length {f : α → Option β} :
    ∀ {l : List α} {r : List β}, mapOption f l = some r → r.length = l.length := by
  intro l
  induction l with
  | nil => intro r h; simp [mapOption] at h; simp [← h]
  | cons a t ih =>
    intro r h
    simp only [mapOption] at h
    cases hfa : f a with
    | none => rw [hfa] at h; simp at h
    | some b =>
      rw [hfa] at h
      cases hmt : mapOption f t with
      | none => rw [hmt] at h; simp at h
      | some bs =>
        rw [hmt] at h
        simp at h
        simp [← h, ih hmt]

theorem mapOption_get? {f : α → Option β} :
    ∀ {l : List α} {r : List β}, mapOption f l = some r →
      ∀ k, r.get? k = (l.get? k).bind f := by
  intro l
  induction l with
  | nil => intro r h k; simp [mapOption] at h; subst h; simp
  | cons a t ih =>
    intro r h k
    simp only [mapOption] at h
    cases hfa : f a with
    | none => rw [hfa] at h; simp at h
    | some b =>
      rw [hfa] at h
      cases hmt : mapOption f t with
      | none => rw [hmt] at h; simp at h
      | some bs =>
        rw [hmt] at h
        simp at h
        subst h
        cases k with
        | zero => simp [hfa]
        | succ k' => simpa using ih hmt k'

theorem everyFourth_get? : ∀ (l : List α) (k : Nat), (everyFourth l).get? k = l.get? (4 * k) := by
  intro l
  induction l using everyFourth.induct with
  | case1 => intro k; simp [everyFourth]
  | case2 a => intro k; cases k <;> simp [everyFourth, Nat.mul_succ]
  | case3 a b => intro k; cases k <;> simp [everyFourth, Nat.mul_succ]
  | case4 a b c => intro k; cases k <;> simp [everyFourth, Nat.mul_succ]
  | case5 a b c d rest ih =>
    intro k
    cases k with
    | zero => simp [everyFourth]
    | succ k' =>
      have h4 : 4 * (k' + 1) = (4 * k') + 4 := by ring
      simp only [everyFourth, h4]
      have := ih k'
      simpa [List.get?] using this

theorem everyFourth_length : ∀ (l : List α), (everyFourth l).length = (l.length + 3) / 4 := by
  intro l
  induction l using everyFourth.induct with
  | case1 => simp [everyFourth]
  | case2 a => simp [everyFourth]
  | case3 a b => simp [everyFourth]
  | case4 a b c => simp [everyFourth]
  | case5 a b c d rest ih => simp [everyFourth, ih]; omega

theorem firstMP3Index_get? :
    ∀ {l : List String} {i : Nat}, firstMP3Index l = some i → l.get? i = some "MP3" := by
  intro l
  induction l with
  | nil => intro i h; simp [firstMP3Index] at h
  | cons t rest ih =>
    intro i h
    simp only [firstMP3Index] at h
    by_cases ht : t = "MP3"
    · simp [ht] at h
      simp [← h, ht]
    · simp [ht] at h
      obtain ⟨j, hj, hji⟩ := h
      subst hji
      simpa using ih hj

theorem durationSizesSlice_eq (ths : List String) (n : Nat) (h : n + 2 ≤ ths.length) :
    durationSizesSlice ths n = (ths.drop (ths.length - (n + 2))).take (n + 1) := by
  unfold durationSizesSlice pySlice pyNorm
  have h1 : (-((n : Int) + 2) < 0) = True := by simp; omega
  have h2 : ((-1 : Int) < 0) = True := by norm_num
  simp only [h1, h2, if_true]
  have e1 : ((ths.length : Int) + -((n : Int) + 2)).toNat = ths.length - (n + 2) := by omega
  have e2 : ((ths.length : Int) + (-1)).toNat = ths.length - 1 := by omega
  rw [e1, e2]
  congr 1
  omega

theorem durationSizesSlice_length (ths : List String) (n : Nat) (h : n + 2 ≤ ths.length) :
    (durationSizesSlice ths n).length = n + 1 := by
  rw [durationSizesSlice_eq ths n h]
  simp
  omega

theorem unitIndexAux_le :
    ∀ (fuel : Nat) {m k : Nat}, m < 1000 ^ (k + 1) → unitIndexAux fuel m ≤ k := by
  intro fuel
  induction fuel with
  | zero => intro m k _; simp [unitIndexAux]
  | succ f ih =>
    intro m k hm
    simp only [unitIndexAux]
    by_cases hsmall : m < 1000
    · simp [hsmall]
    · simp only [hsmall, if_false]
      cases k with
      | zero =>
        exfalso
        simp at hm
        omega
      | succ k' =>
        have hdiv : m / 1000 < 1000 ^ (k' + 1) := by
          rw [Nat.div_lt_iff_lt_mul (by norm_num)]
          calc m < 1000 ^ (k' + 1 + 1) := hm
            _ = 1000 ^ (k' + 1) * 1000 := by ring
        exact Nat.succ_le_succ (ih hdiv)

theorem unitIndex_le_three {m : Nat} (h : m < 1000 ^ 4) : unitIndex m ≤ 3 :=
  unitIndexAux_le m h

/-- Fuel-indifference of the unit-selection loop: any fuel at least `m`
computes the same index, so `unitIndex`'s choice of fuel `m` is faithful
to the unbounded `while` loop of the source. -/
theorem unitIndexAux_fuel_stable :
    ∀ (f₁ f₂ : Nat) {m : Nat}, m ≤ f₁ → m ≤ f₂ → unitIndexAux f₁ m = unitIndexAux f₂ m := by
  intro f₁
  induction f₁ with
  | zero =>
    intro f₂ m h1 _
    interval_cases m
    cases f₂ <;> simp [unitIndexAux]
  | succ f ih =>
    intro f₂ m h1 h2
    cases f₂ with
    | zero =>
      interval_cases m
      simp [unitIndexAux]
    | succ f' =>
      simp only [unitIndexAux]
      by_cases hsmall : m < 1000
      · simp [hsmall]
      · simp only [hsmall, if_false]
        have hd : m / 1000 < m := Nat.div_lt_self (by omega) (by norm_num)
        rw [ih f' (by omega) (by omega)]

/-- Proposition that `s` ends with `suffix` (on the underlying character lists). -/
def sEndsWith (s suffix : String) : Prop := suffix.data <:+ s.data

instance (s suffix : String) : Decidable (sEndsWith s suffix) := by
  unfold sEndsWith
  infer_instance

theorem string_data_append (a b : String) : (a ++ b).data = a.data ++ b.data := rfl

theorem renderSize_endsWith (i b : Nat) :
    sEndsWith (renderSize i b) (" " ++ optStr (unitName i)) := by
  unfold sEndsWith renderSize
  refine ⟨(toString (roundHalfEven (10 * b) (1024 ^ i) / 10) ++ "." ++
    toString (roundHalfEven (10 * b) (1024 ^ i) % 10)).data, ?_⟩
  simp [string_data_append]

/-- The three characters of the `%23` escape. -/
def pat23 : List Char := ['%', '2', '3']

theorem hash_mem_replace23 : ∀ (l : List Char), pat23 <:+: l → '#' ∈ replace23 l := by
  intro l
  induction l using replace23.induct with
  | case1 rest ih => intro _; simp [replace23]
  | case2 c rest hne ih =>
    intro hinf
    rw [List.infix_cons_iff] at hinf
    rcases hinf with hpre | hinf
    · rcases hpre with ⟨t, ht⟩
      simp only [pat23] at ht
      obtain ⟨rfl, hrest⟩ : c = '%' ∧ rest = '2' :: '3' :: t := by
        cases ht
        exact ⟨rfl, rfl⟩
      exact (hne t rfl hrest).elim
    · simp only [replace23]
      exact List.mem_cons_of_mem _ (ih hinf)
  | case3 =>
    intro h
    exact absurd h (by simp [pat23])

theorem three_prefix_replace23 :
    ∀ (l : List Char), ['3'] <+: replace23 l → ∃ u, l = '3' :: u := by
  intro l
  induction l using replace23.induct with
  | case1 rest _ =>
    intro h
    simp only [replace23] at h
    rw [List.cons_prefix_cons] at h
    exact absurd h.1 (by decide)
  | case2 c rest hne _ =>
    intro h
    simp only [replace23] at h
    rw [List.cons_prefix_cons] at h
    exact ⟨rest, by rw [h.1]⟩
  | case3 =>
    intro h
    simp [replace23] at h

theorem twoThree_prefix_replace23 :
    ∀ (l : List Char), ['2', '3'] <+: replace23 l → ∃ u, l = '2' :: '3' :: u := by
  intro l
  induction l using replace23.induct with
  | case1 rest _ =>
    intro h
    simp only [replace23] at h
    rw [List.cons_prefix_cons] at h
    exact absurd h.1 (by decide)
  | case2 c rest hne _ =>
    intro h
    simp only [replace23] at h
    rw [List.cons_prefix_cons] at h
    obtain ⟨u, hu⟩ := three_prefix_replace23 rest h.2
    exact ⟨u, by rw [h.1, hu]⟩
  | case3 =>
    intro h
    simp [replace23] at h

theorem not_infix_pat23_replace23 : ∀ (l : List Char), ¬ pat23 <:+: replace23 l := by
  intro l
  induction l using replace23.induct with
  | case1 rest ih =>
    intro h
    simp only [replace23] at h
    rw [List.infix_cons_iff] at h
    rcases h with hpre | hinf
    · rw [show pat23 = '%' :: ['2', '3'] from rfl, List.cons_prefix_cons] at hpre
      exact absurd hpre.1 (by decide)
    · exact ih hinf
  | case2 c rest hne ih =>
    intro h
    simp only [replace23] at h
    rw [List.infix_cons_iff] at h
    rcases h with hpre | hinf
    · rw [show pat23 = '%' :: ['2', '3'] from rfl, List.cons_prefix_cons] at hpre
      obtain ⟨u, hu⟩ := twoThree_prefix_replace23 rest hpre.2
      exact hne u hpre.1.symm hu
    · exact ih hinf
  | case3 =>
    intro h
    simp [replace23, pat23] at h

theorem downloadStep_files_mono (resolve : String → String) (st : DlState) (url : String)
    {x : String} (h : x ∈ st.files) : x ∈ (downloadStep resolve st url).files := by
  unfold downloadStep
  split <;> simp [h]

theorem foldl_downloadStep_files_mono (resolve : String → String) :
    ∀ (urls : List String) (st : DlState) {x : String},
      x ∈ st.files → x ∈ (urls.foldl (downloadStep resolve) st).files := by
  intro urls
  induction urls with
  | nil => intro st x h; simpa using h
  | cons u rest ih =>
    intro st x h
    simp only [List.foldl_cons]
    exact ih _ (downloadStep_files_mono resolve st u h)

theorem resolve_mem_foldl_files (resolve : String → String) :
    ∀ (urls : List String) (st : DlState) {u : String},
      u ∈ urls → resolve u ∈ (urls.foldl (downloadStep resolve) st).files := by
  intro urls
  induction urls with
  | nil => intro st u h; simp at h
  | cons v rest ih =>
    intro st u h
    simp only [List.foldl_cons]
    rcases List.mem_cons.1 h with rfl | hrest
    · apply foldl_downloadStep_files_mono
      simp only [downloadStep]
      split
      · next hmem => exact hmem
      · simp
    · exact ih _ hrest

theorem foldl_downloadStep_all_present (resolve : String → String) :
    ∀ (urls : List String) (st : DlState),
      (∀ u ∈ urls, resolve u ∈ st.files) →
      urls.foldl (downloadStep resolve) st =
        { files := st.files, downloaded := st.downloaded, skipped := st.skipped + urls.length } := by
  intro urls
  induction urls with
  | nil => intro st _; simp
  | cons v rest ih =>
    intro st h
    simp only [List.foldl_cons]
    have hv : resolve v ∈ st.files := h v (List.mem_cons_self v rest)
    have hstep : downloadStep resolve st v = { st with skipped := st.skipped + 1 } := by
      simp [downloadStep, hv]
    rw [hstep, ih _ (by intro u hu; exact h u (List.mem_cons_of_mem v hu))]
    simp
    omega

/-- Inversion of a successful `mkAlbum` run: every intermediate value of
the constructor is recoverable, and the resulting album is the record
assembled from them. -/
theorem mkAlbum_ok_inversion (p : AlbumPage) (a : Album) (hok : mkAlbum p = .ok a) :
    ∃ title ths mp3Idx dur sizeTexts bytesL labels hrefs,
      p.h2Text = some title ∧
      title ≠ "Ooops!" ∧
      p.secondTable = some ths ∧
      firstMP3Index ths = some mp3Idx ∧
      durationSizesSlice ths (formatsFrom ths mp3Idx).length = dur :: sizeTexts ∧
      mapOption parseSizeMB sizeTexts = some bytesL ∧
      format_bytes bytesL = some labels ∧
      mapOption id (everyFourth p.clickableHrefs) = some hrefs ∧
      a = { title := title, duration := dur,
            formats_and_sizes := (formatsFrom ths mp3Idx).zip labels,
            soundtrack_urls := hrefs.map (fun h => BASE_URL ++ h) } := by
  obtain ⟨h2, table, cells⟩ := p
  unfold mkAlbum at hok
  dsimp only at hok
  cases h2 with
  | none => exact Except.noConfusion hok
  | some title =>
    dsimp only at hok
    by_cases hsent : title = "Ooops!"
    · rw [if_pos hsent] at hok; exact Except.noConfusion hok
    · rw [if_neg hsent] at hok
      cases table with
      | none => exact Except.noConfusion hok
      | some ths =>
        dsimp only at hok
        cases hmp3 : firstMP3Index ths with
        | none => rw [hmp3] at hok; exact Except.noConfusion hok
        | some mp3Idx =>
          rw [hmp3] at hok
          dsimp only at hok
          cases hslice : durationSizesSlice ths (formatsFrom ths mp3Idx).length with
          | nil => rw [hslice] at hok; exact Except.noConfusion hok
          | cons dur sizeTexts =>
            rw [hslice] at hok
            dsimp only at hok
            cases hmap : mapOption parseSizeMB sizeTexts with
            | none => rw [hmap] at hok; exact Except.noConfusion hok
            | some bytesL =>
              rw [hmap] at hok
              dsimp only at hok
              cases hfb : format_bytes bytesL with
              | none => rw [hfb] at hok; exact Except.noConfusion hok
              | some labels =>
                rw [hfb] at hok
                dsimp only at hok
                cases hhr : mapOption id (everyFourth cells) with
                | none => rw [hhr] at hok; exact Except.noConfusion hok
                | some hrefs =>
                  rw [hhr] at hok
                  dsimp only at hok
                  simp only [Except.ok.injEq] at hok
                  refine ⟨title, ths, mp3Idx, dur, sizeTexts, bytesL, labels, hrefs,
                    rfl, hsent, rfl, ?_, ?_, ?_, ?_, ?_, hok.symm⟩ <;>
                    first | rfl | assumption

theorem format_bytes_ok {l : List Nat} {r : List String} (h : format_bytes l = some r) :
    l ≠ [] ∧ r = l.map (renderSize (unitIndex (listMax l))) := by
  unfold format_bytes at h
  split at h
  · exact Option.noConfusion h
  · next hne => exact ⟨hne, (Option.some.inj h).symm⟩

/-! ### Claim theorems -/

/-- Claim C1 (confirmed): on a successful parse of a page whose second
table's header-cell list is long enough (at least `len(formats) + 2`
cells), the album duration is the first element of the slice made of the
last `len(formats) + 2` header cells excluding the very last one — i.e.
the cell at index `length - (len(formats) + 2)` — and the remaining
`len(formats)` entries of that slice are parsed by `parseSizeMB`
(`"<number> MB"` with commas as thousands separators, to megabytes,
times 1,000,000), run as one batch through `format_bytes`, and zipped
positionally with the format names to form `formats_and_sizes`. -/
theorem c1_duration_size_extraction
    (p : AlbumPage) (a : Album) (ths : List String) (mp3Idx : Nat)
    (hok : mkAlbum p = .ok a)
    (ht : p.secondTable = some ths)
    (hm : firstMP3Index ths = some mp3Idx)
    (hlen : (formatsFrom ths mp3Idx).length + 2 ≤ ths.length) :
    ths.get? (ths.length - ((formatsFrom ths mp3Idx).length + 2)) = some a.duration ∧
    ∃ sizeTexts bytesL labels,
      durationSizesSlice ths (formatsFrom ths mp3Idx).length = a.duration :: sizeTexts ∧
      sizeTexts.length = (formatsFrom ths mp3Idx).length ∧
      mapOption parseSizeMB sizeTexts = some bytesL ∧
      format_bytes bytesL = some labels ∧
      a.formats_and_sizes = (formatsFrom ths mp3Idx).zip labels := by
  obtain ⟨title, ths', mp3Idx', dur, sizeTexts, bytesL, labels, hrefs,
    hh2, hsent, ht', hm', hslice, hmap, hfb, hhr, ha⟩ := mkAlbum_ok_inversion p a hok
  rw [ht] at ht'
  obtain rfl : ths = ths' := Option.some.inj ht'
  rw [hm] at hm'
  obtain rfl : mp3Idx = mp3Idx' := Option.some.inj hm'
  have hadur : a.duration = dur := by rw [ha]
  have hslice' := hslice
  rw [durationSizesSlice_eq ths _ hlen] at hslice'
  have hlenslice := durationSizesSlice_length ths _ hlen
  rw [hslice] at hlenslice
  constructor
  · have h0 : ((ths.drop (ths.length - ((formatsFrom ths mp3Idx).length + 2))).take
        ((formatsFrom ths mp3Idx).length + 1)).get? 0 = some dur := by
      rw [hslice']; rfl
    rw [List.get?_take (by omega)] at h0
    rw [List.get?_drop] at h0
    rw [hadur]
    simpa using h0
  · exact ⟨sizeTexts, bytesL, labels, by rw [hadur, hslice],
      by simpa using hlenslice, hmap, hfb, by rw [ha]⟩

/-- Witness for C1 at the concrete page `pgGood`: the slice values, the
parsed byte counts, the formatted labels and the final zip, all
explicit. -/
theorem c1_witness :
    thsGood.get? (thsGood.length - ((formatsFrom thsGood 1).length + 2))
      = some albumGood.duration ∧
    durationSizesSlice thsGood (formatsFrom thsGood 1).length
      = albumGood.duration :: ["10 MB", "20 MB"] ∧
    mapOption parseSizeMB ["10 MB", "20 MB"] = some [10000000, 20000000] ∧
    format_bytes [10000000, 20000000] = some ["9.5 MB", "19.1 MB"] ∧
    albumGood.formats_and_sizes = (formatsFrom thsGood 1).zip ["9.5 MB", "19.1 MB"] := by
  obtain ⟨hdur, sizeTexts, bytesL, labels, hslice, hstl, hmap, hfb, hzip⟩ :=
    c1_duration_size_extraction pgGood albumGood thsGood 1 (by rfl) rfl rfl (by decide)
  have hst : sizeTexts = ["10 MB", "20 MB"] := by
    have hconc : durationSizesSlice thsGood (formatsFrom thsGood 1).length
        = "3:00" :: ["10 MB", "20 MB"] := by decide
    have := hslice.symm.trans hconc
    exact (List.cons.inj this).2
  subst hst
  have hb : bytesL = [10000000, 20000000] := by
    have hconc : mapOption parseSizeMB ["10 MB", "20 MB"] = some [10000000, 20000000] := by
      decide
    exact Option.some.inj (hmap.symm.trans hconc)
  subst hb
  have hl : labels = ["9.5 MB", "19.1 MB"] := by
    have hconc : format_bytes [10000000, 20000000] = some ["9.5 MB", "19.1 MB"] := by decide
    exact Option.some.inj (hfb.symm.trans hconc)
  subst hl
  exact ⟨hdur, hslice, hmap, hfb, hzip⟩

/-- Claim C2 (confirmed): on a successful parse, `soundtrack_urls` is
obtained from the clickable-row cells found after the soundtracks table
by keeping exactly the cells at indices 0, 4, 8, ... in document order
(hence `⌈cells/4⌉` of them), and prefixing each kept cell's first nested
element's `href` with the site origin `BASE_URL`. -/
theorem c2_track_url_extraction (p : AlbumPage) (a : Album) (hok : mkAlbum p = .ok a) :
    a.soundtrack_urls.length = (p.clickableHrefs.length + 3) / 4 ∧
    ∀ k : Nat, a.soundtrack_urls.get? k =
      (p.clickableHrefs.get? (4 * k)).bind (Option.map (fun h => BASE_URL ++ h)) := by
  obtain ⟨title, ths, mp3Idx, dur, sizeTexts, bytesL, labels, hrefs,
    _, _, _, _, _, _, _, hhr, ha⟩ := mkAlbum_ok_inversion p a hok
  subst ha
  constructor
  · simp only [List.length_map]
    rw [mapOption_length hhr, everyFourth_length]
  · intro k
    simp only [List.get?_map]
    rw [mapOption_get? hhr k, everyFourth_get?]
    cases p.clickableHrefs.get? (4 * k) with
    | none => rfl
    | some c => cases c <;> rfl

/-- Witness for C2 at the concrete page `pgGood` (the second kept cell
is the one at index 4). -/
theorem c2_witness :
    albumGood.soundtrack_urls.length = (pgGood.clickableHrefs.length + 3) / 4 ∧
    albumGood.soundtrack_urls.get? 1 =
      (pgGood.clickableHrefs.get? (4 * 1)).bind (Option.map (fun h => BASE_URL ++ h)) :=
  ⟨(c2_track_url_extraction pgGood albumGood (by rfl)).1,
   (c2_track_url_extraction pgGood albumGood (by rfl)).2 1⟩

/-- Claim C3 (confirmed): the parse fails with the NotFound condition
(the source's `ConnectionRefusedError`) exactly when the first `h2`
element's text equals the sentinel `"Ooops!"`; a page whose primary
heading differs never produces that failure (it may fail differently or
succeed). -/
theorem c3_notFound_iff_sentinel (p : AlbumPage) :
    mkAlbum p = .error .connectionRefused ↔ p.h2Text = some "Ooops!" := by
  constructor
  · intro hok
    obtain ⟨h2, table, cells⟩ := p
    unfold mkAlbum at hok
    dsimp only at hok
    cases h2 with
    | none => simp at hok
    | some title =>
      dsimp only at hok
      by_cases hsent : title = "Ooops!"
      · rw [hsent]
      · rw [if_neg hsent] at hok
        cases table with
        | none => simp at hok
        | some ths =>
          dsimp only at hok
          cases hmp3 : firstMP3Index ths with
          | none => rw [hmp3] at hok; simp at hok
          | some mp3Idx =>
            rw [hmp3] at hok
            dsimp only at hok
            cases hslice : durationSizesSlice ths (formatsFrom ths mp3Idx).length with
            | nil => rw [hslice] at hok; simp at hok
            | cons dur sizeTexts =>
              rw [hslice] at hok
              dsimp only at hok
              cases hmap : mapOption parseSizeMB sizeTexts with
              | none => rw [hmap] at hok; simp at hok
              | some bytesL =>
                rw [hmap] at hok
                dsimp only at hok
                cases hfb : format_bytes bytesL with
                | none => rw [hfb] at hok; simp at hok
                | some labels =>
                  rw [hfb] at hok
                  dsimp only at hok
                  cases hhr : mapOption id (everyFourth cells) with
                  | none => rw [hhr] at hok; simp at hok
                  | some hrefs =>
                    rw [hhr] at hok
                    dsimp only at hok
                    simp at hok
  · intro hh2
    obtain ⟨h2, table, cells⟩ := p
    dsimp only at hh2
    subst hh2
    unfold mkAlbum
    dsimp only
    rw [if_pos rfl]

/-- A page carrying the not-found sentinel heading. -/
def pgNotFound : AlbumPage := { h2Text := some "Ooops!", secondTable := none, clickableHrefs := [] }

/-- Witness for C3: the sentinel page indeed raises the NotFound error. -/
theorem c3_witness : mkAlbum pgNotFound = .error .connectionRefused :=
  (c3_notFound_iff_sentinel pgNotFound).mpr rfl

/-- Claim C8 (counterexample): a page with a well-formed soundtracks
table but no clickable-row cells constructs successfully with an empty
`soundtrack_urls`, refuting the claimed invariant that `trackUrls` is
non-empty for every successfully constructed album. -/
def pgNoTracks : AlbumPage :=
  { h2Text := some "Empty Album", secondTable := some thsGood, clickableHrefs := [] }

/-- Claim C8 (counterexample theorem): construction of `pgNoTracks`
succeeds, yet the track-URL list of the resulting album is `[]`. -/
theorem c8_counterexample :
    mkAlbum pgNoTracks =
      .ok { title := "Empty Album", duration := "3:00",
            formats_and_sizes := [("MP3", "9.5 MB"), ("FLAC", "19.1 MB")],
            soundtrack_urls := [] } ∧
    (Album.soundtrack_urls
      { title := "Empty Album", duration := "3:00",
        formats_and_sizes := [("MP3", "9.5 MB"), ("FLAC", "19.1 MB")],
        soundtrack_urls := [] }) = [] :=
  ⟨by rfl, rfl⟩

/-- Claim C8 (amended theorem): every successfully constructed album has
a non-empty `formats_and_sizes` sequence; the `trackUrls` half of the
original claim fails (see the counterexample), since a page without
clickable-row cells still constructs, with an empty URL list. -/
theorem c8_formats_nonempty (p : AlbumPage) (a : Album) (hok : mkAlbum p = .ok a) :
    a.formats_and_sizes ≠ [] := by
  obtain ⟨title, ths, mp3Idx, dur, sizeTexts, bytesL, labels, hrefs,
    _, _, _, hmp3, hslice, hmap, hfb, _, ha⟩ := mkAlbum_ok_inversion p a hok
  subst ha
  simp only
  have hth : ths.get? mp3Idx = some "MP3" := firstMP3Index_get? hmp3
  have hdrop : (ths.drop mp3Idx).get? 0 = some "MP3" := by
    rw [List.get?_drop]
    simpa using hth
  obtain ⟨rest, hrest⟩ : ∃ rest, ths.drop mp3Idx = "MP3" :: rest := by
    cases hd : ths.drop mp3Idx with
    | nil => rw [hd] at hdrop; simp at hdrop
    | cons x xs =>
      rw [hd] at hdrop
      simp at hdrop
      exact ⟨xs, by rw [hdrop]⟩
  have hfmts : formatsFrom ths mp3Idx = "MP3" :: collectFormats rest := by
    unfold formatsFrom
    rw [hrest]
    simp only [collectFormats]
    rw [if_pos (by decide)]
    rfl
  obtain ⟨hbne, hlabels⟩ := format_bytes_ok hfb
  have hlne : labels ≠ [] := by
    rw [hlabels]
    simpa using hbne
  rw [hfmts]
  cases labels with
  | nil => exact absurd rfl hlne
  | cons lb ls => simp [List.zip]

/-- Witness for the amended C8 at the concrete page `pgGood`. -/
theorem c8_witness : albumGood.formats_and_sizes ≠ [] :=
  c8_formats_nonempty pgGood albumGood (by rfl)

/-- Claim C9 (counterexample): a header list that ends immediately after
the format names (`["MP3", "5 MB", "6 MB"]`, all three collected as
format names) leaves only one parseable size cell in the trailing slice,
yet construction succeeds with the zip silently truncated to a single
pair — no `UnexpectedLayout`-style failure exists in the code. -/
def pgShortHeaders : AlbumPage :=
  { h2Text := some "A", secondTable := some ["MP3", "5 MB", "6 MB"], clickableHrefs := [] }

/-- Claim C9 (counterexample theorem): on `pgShortHeaders` the collected
format names number three, the trailing slice supplies a single size
entry, and the constructor returns an album pairing only one format with
a size instead of failing. -/
theorem c9_counterexample :
    formatsFrom ["MP3", "5 MB", "6 MB"] 0 = ["MP3", "5 MB", "6 MB"] ∧
    durationSizesSlice ["MP3", "5 MB", "6 MB"] 3 = ["MP3", "5 MB"] ∧
    mkAlbum pgShortHeaders =
      .ok { title := "A", duration := "MP3",
            formats_and_sizes := [("MP3", "4.8 MB")],
            soundtrack_urls := [] } :=
  ⟨by decide, by decide, by rfl⟩

/-- Claim C9 (amended theorem): the constructor has no size-count check
at all.  When the header list is long enough (`len(formats) + 2` cells
or more) the trailing slice always supplies exactly `len(formats)` size
entries, so no mismatch can arise there, and on success the constructed
pairing has exactly `len(formats)` entries; when the header list is
shorter, the zip silently truncates (see the counterexample) instead of
failing with `UnexpectedLayout`. -/
theorem c9_no_mismatch_when_long_enough
    (p : AlbumPage) (a : Album) (ths : List String) (mp3Idx : Nat)
    (hok : mkAlbum p = .ok a)
    (ht : p.secondTable = some ths)
    (hm : firstMP3Index ths = some mp3Idx)
    (hlen : (formatsFrom ths mp3Idx).length + 2 ≤ ths.length) :
    (durationSizesSlice ths (formatsFrom ths mp3Idx).length).length =
      (formatsFrom ths mp3Idx).length + 1 ∧
    a.formats_and_sizes.length = (formatsFrom ths mp3Idx).length := by
  obtain ⟨title, ths', mp3Idx', dur, sizeTexts, bytesL, labels, hrefs,
    _, _, ht', hm', hslice, hmap, hfb, _, ha⟩ := mkAlbum_ok_inversion p a hok
  rw [ht] at ht'
  obtain rfl : ths = ths' := Option.some.inj ht'
  rw [hm] at hm'
  obtain rfl : mp3Idx = mp3Idx' := Option.some.inj hm'
  have hsl := durationSizesSlice_length ths _ hlen
  refine ⟨hsl, ?_⟩
  rw [hslice] at hsl
  simp only [List.length_cons] at hsl
  have hstl : sizeTexts.length = (formatsFrom ths mp3Idx).length := by omega
  obtain ⟨hbne, hlabels⟩ := format_bytes_ok hfb
  have hll : labels.length = (formatsFrom ths mp3Idx).length := by
    rw [hlabels, List.length_map, mapOption_length hmap, hstl]
  rw [ha]
  simp [List.length_zip, hll]

/-- Witness for the amended C9 at the concrete page `pgGood`. -/
theorem c9_witness :
    (durationSizesSlice thsGood (formatsFrom thsGood 1).length).length =
      (formatsFrom thsGood 1).length + 1 ∧
    albumGood.formats_and_sizes.length = (formatsFrom thsGood 1).length :=
  c9_no_mismatch_when_long_enough pgGood albumGood thsGood 1 (by rfl) rfl rfl (by decide)

/-- Claim C4 (counterexample): for the singleton batch `[10^12]` the
stepping rule advances four times, `unit_dict.get(4)` is Python `None`,
and the rendered string is `"0.9 None"` — its unit is not drawn from
B/KB/MB/GB, refuting the claim's universal range over all non-negative
byte counts. -/
theorem c4_counterexample :
    format_bytes [1000000000000] = some ["0.9 None"] ∧
    ¬ sEndsWith "0.9 None" " B" ∧
    ¬ sEndsWith "0.9 None" " KB" ∧
    ¬ sEndsWith "0.9 None" " MB" ∧
    ¬ sEndsWith "0.9 None" " GB" :=
  ⟨by decide, by decide, by decide, by decide, by decide⟩

/-- Claim C4 (amended theorem): for every non-empty batch whose maximum
is below `1000^4`, `format_bytes` preserves the length, renders every
element as its byte count scaled by `1024^index` to one decimal place,
and all elements share one unit, drawn from B/KB/MB/GB, selected by the
divide-by-1000 stepping rule applied to the maximum (`unitIndex`).  For
larger maxima the shared unit label degenerates to `"None"` (see the
counterexample), which is the only part of the original claim that
fails. -/
theorem c4_sizeformatter (l : List Nat) (hne : l ≠ []) (hmax : listMax l < 1000 ^ 4) :
    ∃ out u,
      format_bytes l = some out ∧
      out.length = l.length ∧
      out = l.map (renderSize (unitIndex (listMax l))) ∧
      unitName (unitIndex (listMax l)) = some u ∧
      u ∈ ["B", "KB", "MB", "GB"] ∧
      ∀ s ∈ out, sEndsWith s (" " ++ u) := by
  have hfb : format_bytes l = some (l.map (renderSize (unitIndex (listMax l)))) := by
    simp [format_bytes, hne]
  have hidx : unitIndex (listMax l) ≤ 3 := unitIndex_le_three hmax
  obtain ⟨u, hu, humem⟩ :
      ∃ u, unitName (unitIndex (listMax l)) = some u ∧ u ∈ ["B", "KB", "MB", "GB"] := by
    rcases (by omega :
        unitIndex (listMax l) = 0 ∨ unitIndex (listMax l) = 1 ∨
        unitIndex (listMax l) = 2 ∨ unitIndex (listMax l) = 3) with h | h | h | h <;>
      rw [h] <;> exact ⟨_, rfl, by decide⟩
  refine ⟨l.map (renderSize (unitIndex (listMax l))), u, hfb, by simp, rfl, hu, humem, ?_⟩
  intro s hs
  simp only [List.mem_map] at hs
  obtain ⟨b, _, rfl⟩ := hs
  have hsfx := renderSize_endsWith (unitIndex (listMax l)) b
  rw [hu] at hsfx
  exact hsfx

/-- Witness for the amended C4 at the spec's own example batch
`[500, 1500000]` (both elements rendered in MB). -/
theorem c4_witness :
    format_bytes [500, 1500000] =
      some (([500, 1500000] : List Nat).map (renderSize (unitIndex (listMax [500, 1500000])))) ∧
    unitName (unitIndex (listMax [500, 1500000])) = some "MB" ∧
    sEndsWith "1.4 MB" (" " ++ "MB") := by
  obtain ⟨out, u, hfb, hlen, hout, hu, humem, hall⟩ :=
    c4_sizeformatter [500, 1500000] (by decide) (by decide)
  have hidx : unitIndex (listMax [500, 1500000]) = 2 := by decide
  have hu' : u = "MB" := by
    rw [hidx] at hu
    exact (Option.some.inj hu).symm
  subst hu'
  refine ⟨by rw [hfb, hout], hu, ?_⟩
  apply hall
  rw [hout]
  decide

/-- Claim C5 (confirmed): running the download loop a second time over
the directory state left by a completed first run (same track URLs, same
resolution) downloads nothing, skips exactly one file per track, and
leaves the directory contents unchanged. -/
theorem c5_download_idempotent (resolve : String → String) (urls files₀ : List String) :
    (download resolve urls (download resolve urls files₀).files).downloaded = 0 ∧
    (download resolve urls (download resolve urls files₀).files).skipped = urls.length ∧
    (download resolve urls (download resolve urls files₀).files).files =
      (download resolve urls files₀).files := by
  have hpresent : ∀ u ∈ urls, resolve u ∈ (download resolve urls files₀).files := by
    intro u hu
    unfold download
    exact resolve_mem_foldl_files resolve urls _ hu
  have h2 := foldl_downloadStep_all_present resolve urls
    ⟨(download resolve urls files₀).files, 0, 0⟩ hpresent
  unfold download at h2 ⊢
  rw [h2]
  simp

/-- Witness for C5 at a concrete two-track album downloaded into an
initially empty directory. -/
theorem c5_witness :
    (download (fun u => u) ["a.mp3", "b.mp3"]
        (download (fun u => u) ["a.mp3", "b.mp3"] []).files).downloaded = 0 ∧
    (download (fun u => u) ["a.mp3", "b.mp3"]
        (download (fun u => u) ["a.mp3", "b.mp3"] []).files).skipped =
      (["a.mp3", "b.mp3"] : List String).length ∧
    (download (fun u => u) ["a.mp3", "b.mp3"]
        (download (fun u => u) ["a.mp3", "b.mp3"] []).files).files =
      (download (fun u => u) ["a.mp3", "b.mp3"] []).files :=
  c5_download_idempotent (fun u => u) ["a.mp3", "b.mp3"] []

/-- Claim C6 (confirmed): selecting any format index greater than or
equal to the number of `songDownloadLink` elements on the track page
fails with the index-out-of-range error — the selection is never
clamped to a valid position. -/
theorem c6_format_index_out_of_range (pg : TrackPage) (i : Int)
    (h : (pg.links.length : Int) ≤ i) :
    scrape_download_url pg i = .error .indexError := by
  unfold scrape_download_url pyIndex
  have h0 : 0 ≤ i := le_trans (by positivity) h
  rw [if_pos h0]
  have hnone : pg.links.get? i.toNat = none := by
    rw [List.get?_eq_none]
    omega
  rw [hnone]

/-- Witness for C6: a track page offering exactly one download link,
queried at format index 1 (i.e. `len(album.formats)` for a one-format
album). -/
theorem c6_witness : scrape_download_url ⟨["/x.mp3"]⟩ 1 = .error .indexError :=
  c6_format_index_out_of_range ⟨["/x.mp3"]⟩ 1 (by decide)

/-- Claim C10 (confirmed): on a track page with at least one
`songDownloadLink` element, format index `-1` does not fail: Python
sequence indexing counts negative indices from the end, so the resolver
returns the (adjusted) URL of the last link on the page. -/
theorem c10_negative_index_silently_accepted (pg : TrackPage) (h : pg.links ≠ []) :
    scrape_download_url pg (-1) = .ok (adjustUrl (pg.links.getLast h)) := by
  unfold scrape_download_url pyIndex
  have hlen : 1 ≤ pg.links.length := List.length_pos.2 h
  rw [if_neg (by norm_num)]
  rw [if_neg (by omega)]
  have htn : ((pg.links.length : Int) + (-1)).toNat = pg.links.length - 1 := by omega
  rw [htn]
  have hget : pg.links.get? (pg.links.length - 1) = some (pg.links.getLast h) := by
    rw [List.getLast_eq_get]
    exact List.get?_eq_get _
  rw [hget]

/-- Witness for C10: a single-link track page resolved at index `-1`. -/
theorem c10_witness :
    scrape_download_url ⟨["/t/Song %231.mp3"]⟩ (-1) = .ok "/t/Song %231.mp3" := by
  rw [c10_negative_index_silently_accepted ⟨["/t/Song %231.mp3"]⟩ (by decide)]
  rfl

/-- Claim C7 (counterexample): for the raw href `"a%23b/c.mp3"` — which
contains `%23`, but in a non-final path segment — the adjusted URL is
unchanged, the filename is `"c.mp3"`, and it contains no `#`; and for
the slash-free href `"%23x"` filename derivation raises `IndexError`
instead of producing a name.  Both refute the claim's universal
quantification over all raw hrefs. -/
theorem c7_counterexample :
    pat23 <:+: "a%23b/c.mp3".data ∧
    adjustUrl "a%23b/c.mp3" = "a%23b/c.mp3" ∧
    parse_filename (adjustUrl "a%23b/c.mp3") = .ok "c.mp3" ∧
    ('#' ∈ "c.mp3".data → False) ∧
    parse_filename (adjustUrl "%23x") = .error .indexError :=
  ⟨by decide, by rfl, by rfl, by decide, by rfl⟩

/-- Claim C7 (amended theorem): for every raw href, the resolved
download URL is the percent-decoded href with every literal `#`
re-encoded as `%23`; whenever that adjusted URL contains a `/`, the
filename is its final path segment with `%23` substituted back to `#`,
and in particular whenever that *final segment* contains `%23` the
filename contains `#`, and the filename never contains `%23`.  (The
original claim quantified over the whole raw link and over hrefs whose
adjusted form has no path separator; both failures are exhibited by the
counterexample.) -/
theorem c7_filename_hash_roundtrip (raw : String) (seg : List Char)
    (hseg : afterLastSlash (adjustUrl raw).data = some seg) :
    adjustUrl raw = ⟨replaceHash (unquote raw.data)⟩ ∧
    parse_filename (adjustUrl raw) = .ok ⟨replace23 seg⟩ ∧
    (pat23 <:+: seg → '#' ∈ replace23 seg) ∧
    ¬ pat23 <:+: replace23 seg := by
  refine ⟨rfl, ?_, hash_mem_replace23 seg, not_infix_pat23_replace23 seg⟩
  unfold parse_filename
  rw [hseg]

/-- Witness for the amended C7 at the raw href `"/ost/%2319 Track.mp3"`
(final segment carries the escape; the filename restores `#`). -/
theorem c7_witness :
    adjustUrl "/ost/%2319 Track.mp3" = ⟨replaceHash (unquote "/ost/%2319 Track.mp3".data)⟩ ∧
    parse_filename (adjustUrl "/ost/%2319 Track.mp3") = .ok ⟨replace23 "%2319 Track.mp3".data⟩ ∧
    (pat23 <:+: "%2319 Track.mp3".data → '#' ∈ replace23 "%2319 Track.mp3".data) ∧
    ¬ pat23 <:+: replace23 "%2319 Track.mp3".data :=
  c7_filename_hash_roundtrip "/ost/%2319 Track.mp3" "%2319 Track.mp3".data (by rfl)

/-- Sanity: the witness's filename indeed restores the `#`. -/
example : parse_filename (adjustUrl "/ost/%2319 Track.mp3") = .ok "#19 Track.mp3" := by rfl
